import Mathlib

/-!
Verification development for the `btree` repository: an on-disk B+tree
with copy-on-write page management, a data-page layer for values, and a
WAL holding the current root offset.

The embedding below mirrors `src/btree.rs`, `src/node.rs` and
`src/node_type.rs` definition by definition.  File pages are modelled as
a list of typed pages (`Pager.pages`); byte offsets, which in the source
are always multiples of `PAGE_SIZE`, are modelled as page indices.
Recursive tree walks take an explicit fuel argument; exhausting fuel
yields the distinguished error `Error.outOfFuel`, which no run in this
file ever produces.  Rust panics (`todo!()` in `BTree::merge`,
out-of-bounds `Vec` operations) are modelled as the distinguished error
`Error.panicked`; a panic leaves all files, in particular the WAL root
record, unchanged, which the modelling preserves.
-/

namespace Btree

/-- Byte position of a page in the tree file (`node_type.rs`, `Offset`).
Offsets in the source are multiples of `PAGE_SIZE`; we store the page
index. -/
structure Offset where
  val : Nat
deriving DecidableEq, Repr

/-- Comparison key of a record (`node_type.rs`, `Key`). -/
structure Key where
  s : String
deriving DecidableEq, Repr

/-- Leaf entry: a key together with the index of its value inside the
leaf's data page (`node_type.rs`, `KeyValuePair`). -/
structure KeyValuePair where
  key : String
  idx : Nat
deriving DecidableEq, Repr

/-- Source `node_type.rs`, `NodeType`. -/
inductive NodeType where
  | internal (children : List Offset) (keys : List Key)
  | leaf (dataOffset : Offset) (pairs : List KeyValuePair)
  | unexpected
deriving DecidableEq, Repr

/-- Source `node.rs`, `Node`. -/
structure Node where
  node_type : NodeType
  is_root : Bool
  parent_offset : Option Offset
deriving DecidableEq, Repr

/-- Modelled from the spec: the values-based `DataPage` of §4.6 (an
ordered list of raw value strings inside one page, with append, indexed
get and split).  `src/data_page.rs` only contains a raw-byte page type;
the `DataPage` used by `src/btree.rs` (`values`, `insert`, `get`,
`split`) is not under `src/`. -/
structure DataPage where
  values : List String
deriving DecidableEq, Repr

/-- Modelled from the spec: a fixed-size file page (§4.5/§4.6 codecs).
The byte-level codec of the missing `page.rs`/`page_layout.rs` is
abstracted to a typed sum; encoding then decoding a node or data page is
the identity. -/
inductive Page where
  | node (n : Node)
  | data (d : DataPage)
deriving DecidableEq, Repr

/-- Modelled from the spec: the error kinds of §7 (`error.rs` is not
under `src/`), plus two modelling artifacts: `panicked` stands for a
Rust panic (`todo!()` in `BTree::merge`, out-of-bounds `Vec` ops) and
`outOfFuel` for exhausted recursion fuel. -/
inductive Error where
  | keyNotFound
  | utf8Error
  | ioError
  | unexpectedError
  | panicked
  | outOfFuel
deriving DecidableEq, Repr

/-- Source `pager.rs`, `Pager`: the tree file.  The append cursor always equals
the file length, i.e. `pages.length`. -/
structure Pager where
  pages : List Page
deriving DecidableEq, Repr

/-- Modelled from the spec: the WAL of §4.8 (`wal.rs` is not under
`src/`), holding the current root offset.  `writes` instruments the
model with the number of `set_root` calls (each is one write of the
root record in the source); no operation ever reads it. -/
structure Wal where
  root : Offset
  writes : Nat
deriving DecidableEq, Repr

/-- Source `btree.rs`, `BTree`. -/
structure BTree where
  pager : Pager
  b : Nat
  wal : Wal
deriving DecidableEq, Repr

/-- Rust `usize::MAX`, the initial accumulator of the minimum-index scan
in the leaf branch of `Node::split`. -/
def USIZE_MAX : Nat := 2 ^ 64 - 1

/-- Comparison of two characters by code point (Rust compares strings
byte-wise over UTF-8, which orders code points identically). -/
def charCmp (a b : Char) : Ordering :=
  if a.toNat < b.toNat then .lt else if a.toNat = b.toNat then .eq else .gt

/-- Lexicographic comparison of two character lists. -/
def charListCmp : List Char → List Char → Ordering
  | [], [] => .eq
  | [], _ :: _ => .lt
  | _ :: _, [] => .gt
  | a :: as, b :: bs =>
    match charCmp a b with
    | .eq => charListCmp as bs
    | o => o

/-- Model of Rust `Ord::cmp` for `String`: lexicographic comparison. -/
def strCmp (a b : String) : Ordering :=
  charListCmp a.data b.data

/-- Source `node_type.rs`: `Ord for KeyValuePair` compares only the `key`
field. -/
def kvCmp (p q : KeyValuePair) : Ordering :=
  strCmp p.key q.key

/-- Source `node_type.rs`: `PartialEq for KeyValuePair` compares both `key`
and `idx`. -/
def kvBeq (p q : KeyValuePair) : Bool :=
  p.key == q.key && p.idx == q.idx

/-- Derived `Ord` of the single-field `Key` struct: compares the
underlying strings. -/
def keyCmp (a b : Key) : Ordering :=
  strCmp a.s b.s

/-- The loop of Rust `slice::binary_search_by`: `f` compares an element
with the searched target.  `.ok i` is Rust's `Ok(i)` (match at `i`),
`.error i` is Rust's `Err(i)` (insertion point `i`).  The fuel is a
modelling artifact; `right - left` shrinks at every step, so any fuel
`≥ right - left` gives the source behavior. -/
def binarySearchGo (f : α → Ordering) (xs : List α) :
    Nat → Nat → Nat → Except Nat Nat
  | 0, left, _ => .error left
  | fuel + 1, left, right =>
    if left < right then
      let size := right - left
      let mid := left + size / 2
      match xs.get? mid with
      | none => .error left
      | some x =>
        match f x with
        | .lt => binarySearchGo f xs fuel (mid + 1) right
        | .gt => binarySearchGo f xs fuel left mid
        | .eq => .ok mid
    else
      .error left

/-- Rust `slice::binary_search_by` on a list. -/
def binarySearchBy (f : α → Ordering) (xs : List α) : Except Nat Nat :=
  binarySearchGo f xs (xs.length + 1) 0 xs.length

/-- Rust `.unwrap_or_else(|x| x)` on a binary-search result. -/
def unwrapOrIdx : Except Nat Nat → Nat
  | .ok i => i
  | .error i => i

/-- Rust `Vec::insert(i, x)`: shifts the suffix starting at `i` to the
right.  (`Vec::insert` panics for `i > len`; every call site below has
`i ≤ len`, where this equals the source behavior.) -/
def insertAt (i : Nat) (x : α) (xs : List α) : List α :=
  xs.take i ++ x :: xs.drop i

/-- Rust `Vec::remove(i)`.  (`Vec::remove` panics for `i ≥ len`; every
call site below has `i < len`, where this equals the source behavior.) -/
def removeAt (i : Nat) (xs : List α) : List α :=
  xs.eraseIdx i

/-- Source `pager.rs`: read the page stored at an offset.  Reading past the end
of the file fails (`read_exact` errors), surfaced as `ioError`. -/
def Pager.get_page (p : Pager) (o : Offset) : Except Error Page :=
  match p.pages.get? o.val with
  | some pg => .ok pg
  | none => .error .ioError

/-- Source `pager.rs`: append a page at the cursor (the end of the file) and
return its offset. -/
def Pager.write_page (p : Pager) (pg : Page) : Offset × Pager :=
  (⟨p.pages.length⟩, ⟨p.pages ++ [pg]⟩)

/-- Source `pager.rs`: overwrite the page at an offset in place, without moving
the append cursor.  Every call site overwrites an existing page. -/
def Pager.write_page_at_offset (p : Pager) (pg : Page) (o : Offset) : Pager :=
  ⟨p.pages.set o.val pg⟩

/-- Modelled from the spec: `Wal::get_root` (§4.8) reads the current
root offset. -/
def Wal.get_root (w : Wal) : Offset :=
  w.root

/-- Modelled from the spec: `Wal::set_root` (§4.8) overwrites the root
record with the given offset; this is the single commit write of an
operation.  The instrumentation field counts these writes. -/
def Wal.set_root (w : Wal) (o : Offset) : Wal :=
  ⟨o, w.writes + 1⟩

/-- Source `node.rs`, `impl TryFrom<Page> for Node`: decode a page as a node.
With the codec abstracted to typed pages, decoding a node page is the
identity; a data page does not carry a valid node-type byte and fails
structurally. -/
def Node.try_from : Page → Except Error Node
  | .node n => .ok n
  | .data _ => .error .unexpectedError

/-- Modelled from the spec: `DataPage::try_from` decodes a page as a
data page (§4.6); a node page fails structurally. -/
def DataPage.try_from : Page → Except Error DataPage
  | .data d => .ok d
  | .node _ => .error .unexpectedError

/-- Modelled from the spec: `DataPage::insert` (§4.6) appends a value
and returns its zero-based index. -/
def DataPage.insert (d : DataPage) (v : String) : Nat × DataPage :=
  (d.values.length, ⟨d.values ++ [v]⟩)

/-- Modelled from the spec: `DataPage::get` (§4.6), safe indexed
lookup. -/
def DataPage.get (d : DataPage) (i : Nat) : Option String :=
  d.values.get? i

/-- Modelled from the spec: `DataPage::split` (§4.6) keeps
`values[..b]` on the left and moves `values[b..]` to a new page. -/
def DataPage.split (d : DataPage) (b : Nat) : DataPage × DataPage :=
  (⟨d.values.take b⟩, ⟨d.values.drop b⟩)

/-- Source `node.rs`, `Node::split`: split a full node around the median.
Returns (result, the mutated `self`, the mutated pager); on an error the
mutations of `self` performed before the failing step persist, as for a
Rust `&mut self` receiver.  In the internal branch `Vec::remove(0)` on
an empty sibling-key vector would panic (`panicked`); both branches are
only ever called on full nodes, where every step succeeds. -/
def Node.split (node : Node) (b : Nat) (pager : Pager) :
    Except Error (Key × Node) × Node × Pager :=
  match node.node_type with
  | .internal children keys =>
    let keptKeys := keys.take (b - 1)
    let siblingKeys := keys.drop (b - 1)
    match siblingKeys with
    | [] =>
      (.error .panicked, { node with node_type := .internal children keptKeys }, pager)
    | median :: restKeys =>
      let keptChildren := children.take b
      let siblingChildren := children.drop b
      (.ok (median, Node.mk (.internal siblingChildren restKeys) false node.parent_offset),
       { node with node_type := .internal keptChildren keptKeys }, pager)
  | .leaf offset pairs =>
    let kept := pairs.take b
    let siblingPairs := pairs.drop b
    match kept.get? (b - 1) with
    | none =>
      (.error .unexpectedError, { node with node_type := .leaf offset kept }, pager)
    | some medianPair =>
      match pager.get_page offset with
      | .error e => (.error e, { node with node_type := .leaf offset kept }, pager)
      | .ok page =>
        match DataPage.try_from page with
        | .error e => (.error e, { node with node_type := .leaf offset kept }, pager)
        | .ok dataPage =>
          let (left, right) := dataPage.split b
          let pager1 := pager.write_page_at_offset (Page.data left) offset
          let (siblingOffset, pager2) := pager1.write_page (Page.data right)
          let m := siblingPairs.foldl (fun acc p => if p.idx ≤ acc then p.idx else acc) USIZE_MAX
          let siblingPairs' := siblingPairs.map fun p => { p with idx := p.idx - m }
          (.ok (Key.mk medianPair.key,
                Node.mk (.leaf siblingOffset siblingPairs') false node.parent_offset),
           { node with node_type := .leaf offset kept }, pager2)
  | .unexpected => (.error .unexpectedError, node, pager)

/-- Rust `key <= median.0` on strings, via the `Ord` model. -/
def strLe (a b : String) : Bool :=
  match strCmp a b with
  | .gt => false
  | _ => true

/-- Source `btree.rs`, `BTree::is_node_full`. -/
def BTree.is_node_full (st : BTree) (node : Node) : Except Error Bool :=
  match node.node_type with
  | .leaf _ pairs => .ok (pairs.length == 2 * st.b - 1)
  | .internal _ keys => .ok (keys.length == 2 * st.b - 1)
  | .unexpected => .error .unexpectedError

/-- Source `btree.rs`, `BTree::is_node_underflow`: the root cannot
underflow. -/
def BTree.is_node_underflow (st : BTree) (node : Node) : Except Error Bool :=
  match node.node_type with
  | .leaf _ pairs => .ok (decide (pairs.length < st.b - 1) && !node.is_root)
  | .internal _ keys => .ok (decide (keys.length < st.b - 1) && !node.is_root)
  | .unexpected => .error .unexpectedError

/-- Source `btree.rs`, `BTree::insert_non_full`: insert a key-value pair below
a node that is already a CoW copy.  The first component is the returned
`Result`, the second the engine state after the call (whose pager keeps
all pages written before an early error return, as in the source). -/
def BTree.insert_non_full (fuel : Nat) (st : BTree) (node : Node)
    (node_offset : Offset) (key value : String) :
    Except Error Unit × BTree :=
  match fuel with
  | 0 => (.error .outOfFuel, st)
  | fuel + 1 =>
    match node.node_type with
    | .leaf data_offset pairs =>
      let kv : KeyValuePair := ⟨key, 0⟩
      let idx := unwrapOrIdx (binarySearchBy (fun p => kvCmp p kv) pairs)
      match st.pager.get_page data_offset with
      | .error e => (.error e, st)
      | .ok page =>
        match DataPage.try_from page with
        | .error e => (.error e, st)
        | .ok data_page =>
          let (data_idx, data_page') := data_page.insert value
          let kv' := { kv with idx := data_idx }
          let pairs' := insertAt idx kv' pairs
          let (offset, pager1) := st.pager.write_page (Page.data data_page')
          let node' := { node with node_type := .leaf offset pairs' }
          let pager2 := pager1.write_page_at_offset (Page.node node') node_offset
          (.ok (), { st with pager := pager2 })
    | .internal children keys =>
      let idx := unwrapOrIdx (binarySearchBy (fun k => keyCmp k (Key.mk key)) keys)
      match children.get? idx with
      | none => (.error .unexpectedError, st)
      | some child_offset =>
        match st.pager.get_page child_offset with
        | .error e => (.error e, st)
        | .ok child_page =>
          match Node.try_from child_page with
          | .error e => (.error e, st)
          | .ok child =>
            let (new_child_offset, pager1) := st.pager.write_page (Page.node child)
            let children1 := children.set idx new_child_offset
            let st1 := { st with pager := pager1 }
            match st1.is_node_full child with
            | .error e => (.error e, st1)
            | .ok true =>
              match child.split st1.b st1.pager with
              | (.error e, _, pager2) => (.error e, { st1 with pager := pager2 })
              | (.ok (median, sibling), child', pager2) =>
                let pager3 := pager2.write_page_at_offset (Page.node child') new_child_offset
                let (sibling_offset, pager4) := pager3.write_page (Page.node sibling)
                let children2 := insertAt (idx + 1) sibling_offset children1
                let keys2 := insertAt idx median keys
                let node' := { node with node_type := .internal children2 keys2 }
                let pager5 := pager4.write_page_at_offset (Page.node node') node_offset
                let st2 := { st1 with pager := pager5 }
                if strLe key median.s then
                  st2.insert_non_full fuel child' new_child_offset key value
                else
                  st2.insert_non_full fuel sibling sibling_offset key value
            | .ok false =>
              let node' := { node with node_type := .internal children1 keys }
              let pager2 := pager1.write_page_at_offset (Page.node node') node_offset
              let st2 := { st1 with pager := pager2 }
              st2.insert_non_full fuel child new_child_offset key value
    | .unexpected => (.error .unexpectedError, st)

/-- Source `btree.rs`, `BTree::insert`: CoW-copy (and, when full, split) the
root, insert below it, then commit by setting the WAL root to the new
copy's offset. -/
def BTree.insert (st : BTree) (fuel : Nat) (key value : String) :
    Except Error Unit × BTree :=
  let root_offset := st.wal.get_root
  match st.pager.get_page root_offset with
  | .error e => (.error e, st)
  | .ok root_page =>
    match Node.try_from root_page with
    | .error e => (.error e, st)
    | .ok root =>
      match st.is_node_full root with
      | .error e => (.error e, st)
      | .ok true =>
        let new_root0 : Node := ⟨.internal [] [], true, none⟩
        let (new_root_offset, pager1) := st.pager.write_page (Page.node new_root0)
        let root1 := { root with parent_offset := some new_root_offset, is_root := false }
        match root1.split st.b pager1 with
        | (.error e, _, pager2) => (.error e, { st with pager := pager2 })
        | (.ok (median, sibling), root2, pager2) =>
          let (old_root_offset, pager3) := pager2.write_page (Page.node root2)
          let (sibling_offset, pager4) := pager3.write_page (Page.node sibling)
          let new_root := { new_root0 with
            node_type := .internal [old_root_offset, sibling_offset] [median] }
          let pager5 := pager4.write_page_at_offset (Page.node new_root) new_root_offset
          let st1 := { st with pager := pager5 }
          match st1.insert_non_full fuel new_root new_root_offset key value with
          | (.error e, st2) => (.error e, st2)
          | (.ok _, st2) => (.ok (), { st2 with wal := st2.wal.set_root new_root_offset })
      | .ok false =>
        let new_root := root
        let (new_root_offset, pager1) := st.pager.write_page (Page.node new_root)
        let st1 := { st with pager := pager1 }
        match st1.insert_non_full fuel new_root new_root_offset key value with
        | (.error e, st2) => (.error e, st2)
        | (.ok _, st2) => (.ok (), { st2 with wal := st2.wal.set_root new_root_offset })

/-- Source `btree.rs`, `BTree::search_node`: recursively search the subtree
rooted at a node.  The engine state is threaded as for the `&mut self`
receiver of the source. -/
def BTree.search_node (fuel : Nat) (st : BTree) (node : Node)
    (searchKey : String) : Except Error String × BTree :=
  match fuel with
  | 0 => (.error .outOfFuel, st)
  | fuel + 1 =>
    match node.node_type with
    | .internal children keys =>
      let idx := unwrapOrIdx (binarySearchBy (fun k => keyCmp k (Key.mk searchKey)) keys)
      match children.get? idx with
      | none => (.error .unexpectedError, st)
      | some child_offset =>
        match st.pager.get_page child_offset with
        | .error e => (.error e, st)
        | .ok page =>
          match Node.try_from page with
          | .error e => (.error e, st)
          | .ok child_node => st.search_node fuel child_node searchKey
    | .leaf offset pairs =>
      match binarySearchBy (fun p => strCmp p.key searchKey) pairs with
      | .ok idx =>
        match pairs.get? idx with
        | none => (.error .keyNotFound, st)
        | some value =>
          match st.pager.get_page offset with
          | .error e => (.error e, st)
          | .ok page =>
            match DataPage.try_from page with
            | .error e => (.error e, st)
            | .ok data_page =>
              match data_page.get value.idx with
              | none => (.error .unexpectedError, st)
              | some v => (.ok v, st)
      | .error _ => (.error .keyNotFound, st)
    | .unexpected => (.error .unexpectedError, st)

/-- Source `btree.rs`, `BTree::search`. -/
def BTree.search (st : BTree) (fuel : Nat) (key : String) :
    Except Error String × BTree :=
  let root_offset := st.wal.get_root
  match st.pager.get_page root_offset with
  | .error e => (.error e, st)
  | .ok root_page =>
    match Node.try_from root_page with
    | .error e => (.error e, st)
    | .ok root => st.search_node fuel root key

/-- Source `btree.rs`, `BTree::merge`: merge two sibling nodes of the same
kind.  For leaves the source computes the merged node's data-page
offset with `todo!()`, which panics (`panicked`). -/
def BTree.merge (_self : BTree) (first second : Node) : Except Error Node :=
  match first.node_type with
  | .leaf _ _ =>
    match second.node_type with
    | .leaf _ _ => .error .panicked
    | _ => .error .unexpectedError
  | .internal first_offsets first_keys =>
    match second.node_type with
    | .internal second_offsets second_keys =>
      .ok ⟨.internal (first_offsets ++ second_offsets) (first_keys ++ second_keys),
           first.is_root, first.parent_offset⟩
    | _ => .error .unexpectedError
  | .unexpected => .error .unexpectedError

/-- Source `btree.rs`, `BTree::borrow_if_needed`: after a removal, merge an
underflowing node with a sibling and continue up the tree.  The
`Vec::remove` calls are modelled by the total `removeAt`; every
reachable call has in-range indices. -/
def BTree.borrow_if_needed (fuel : Nat) (st : BTree) (node : Node)
    (key : Key) : Except Error Unit × BTree :=
  match fuel with
  | 0 => (.error .outOfFuel, st)
  | fuel + 1 =>
    match st.is_node_underflow node with
    | .error e => (.error e, st)
    | .ok false => (.ok (), st)
    | .ok true =>
      match node.parent_offset with
      | none => (.error .unexpectedError, st)
      | some parent_offset =>
        match st.pager.get_page parent_offset with
        | .error e => (.error e, st)
        | .ok parent_page =>
          match Node.try_from parent_page with
          | .error e => (.error e, st)
          | .ok parent_node =>
            match parent_node.node_type with
            | .internal children keys =>
              let idx := unwrapOrIdx (binarySearchBy (fun k => keyCmp k key) keys)
              let sibling_idx := if idx > 0 then idx - 1 else idx + 1
              match children.get? sibling_idx with
              | none => (.error .unexpectedError, st)
              | some sibling_offset =>
                match st.pager.get_page sibling_offset with
                | .error e => (.error e, st)
                | .ok sibling_page =>
                  match Node.try_from sibling_page with
                  | .error e => (.error e, st)
                  | .ok sibling =>
                    match st.merge node sibling with
                    | .error e => (.error e, st)
                    | .ok merged_node =>
                      let (merged_node_offset, pager1) :=
                        st.pager.write_page (Page.node merged_node)
                      let merged_node_idx := min idx sibling_idx
                      let children1 := removeAt merged_node_idx children
                      let children2 := removeAt merged_node_idx children1
                      let st1 := { st with pager := pager1 }
                      if parent_node.is_root && children2.isEmpty then
                        (.ok (), { st1 with wal := st1.wal.set_root merged_node_offset })
                      else
                        let keys1 := removeAt idx keys
                        let children3 := insertAt merged_node_idx merged_node_offset children2
                        let parent_node1 := { parent_node with
                          node_type := .internal children3 keys1 }
                        let pager2 :=
                          pager1.write_page_at_offset (Page.node parent_node1) parent_offset
                        let st2 := { st1 with pager := pager2 }
                        st2.borrow_if_needed fuel parent_node1 key
            | _ => (.error .unexpectedError, st)

/-- Source `btree.rs`, `BTree::delete_key_from_subtree`: CoW descent to the
leaf holding the key, removal there, then underflow repair. -/
def BTree.delete_key_from_subtree (fuel : Nat) (st : BTree) (key : Key)
    (node : Node) (node_offset : Offset) : Except Error Unit × BTree :=
  match fuel with
  | 0 => (.error .outOfFuel, st)
  | fuel + 1 =>
    match node.node_type with
    | .leaf data_offset pairs =>
      match binarySearchBy (fun p => keyCmp (Key.mk p.key) key) pairs with
      | .error _ => (.error .keyNotFound, st)
      | .ok key_idx =>
        match st.pager.get_page data_offset with
        | .error e => (.error e, st)
        | .ok page =>
          match DataPage.try_from page with
          | .error e => (.error e, st)
          | .ok data_page =>
            let data_page' : DataPage := ⟨removeAt key_idx data_page.values⟩
            let (offset, pager1) := st.pager.write_page (Page.data data_page')
            let pairs' := removeAt key_idx pairs
            let node' := { node with node_type := .leaf offset pairs' }
            let pager2 := pager1.write_page_at_offset (Page.node node') node_offset
            let st1 := { st with pager := pager2 }
            match st1.borrow_if_needed fuel node' key with
            | (.error e, st2) => (.error e, st2)
            | (.ok _, st2) => (.ok (), st2)
    | .internal children keys =>
      let node_idx := unwrapOrIdx (binarySearchBy (fun k => keyCmp k key) keys)
      match children.get? node_idx with
      | none => (.error .unexpectedError, st)
      | some child_offset =>
        match st.pager.get_page child_offset with
        | .error e => (.error e, st)
        | .ok child_page =>
          match Node.try_from child_page with
          | .error e => (.error e, st)
          | .ok child_node0 =>
            let child_node := { child_node0 with parent_offset := some node_offset }
            let (new_child_offset, pager1) := st.pager.write_page (Page.node child_node)
            let children1 := children.set node_idx new_child_offset
            let node' := { node with node_type := .internal children1 keys }
            let pager2 := pager1.write_page_at_offset (Page.node node') node_offset
            let st1 := { st with pager := pager2 }
            st1.delete_key_from_subtree fuel key child_node new_child_offset
    | .unexpected => (.error .unexpectedError, st)

/-- Source `btree.rs`, `BTree::delete`: CoW-copy the root, delete below it,
commit by setting the WAL root to the copy's offset. -/
def BTree.delete (st : BTree) (fuel : Nat) (key : Key) :
    Except Error Unit × BTree :=
  let root_offset := st.wal.get_root
  match st.pager.get_page root_offset with
  | .error e => (.error e, st)
  | .ok root_page =>
    match Node.try_from root_page with
    | .error e => (.error e, st)
    | .ok new_root =>
      let (new_root_offset, pager1) := st.pager.write_page (Page.node new_root)
      let st1 := { st with pager := pager1 }
      match st1.delete_key_from_subtree fuel key new_root new_root_offset with
      | (.error e, st2) => (.error e, st2)
      | (.ok _, st2) => (.ok (), { st2 with wal := st2.wal.set_root new_root_offset })

/-- Source `btree.rs`, `BTreeBuilder::build`, with the filesystem parts of the
builder (path validation, file creation, `Wal::new`) out of the model:
write an empty data page and an empty leaf root referencing it, then
record the root offset in the WAL. -/
def BTreeBuilder.build (b : Nat) : Except Error BTree :=
  if b = 0 then .error .unexpectedError
  else
    let pager0 : Pager := ⟨[]⟩
    let (root_page_offset, pager1) := pager0.write_page (Page.data ⟨[]⟩)
    let root : Node := ⟨.leaf root_page_offset [], true, none⟩
    let (root_offset, pager2) := pager1.write_page (Page.node root)
    let wal := Wal.set_root ⟨⟨0⟩, 0⟩ root_offset
    .ok ⟨pager2, b, wal⟩

/-- Run one `insert`, keeping the state only on success (for chaining
concrete scenarios). -/
def BTree.insertOk (st : BTree) (fuel : Nat) (key value : String) :
    Except Error BTree :=
  match st.insert fuel key value with
  | (.ok _, st') => .ok st'
  | (.error e, _) => .error e

/-- Run one `delete`, keeping the state only on success. -/
def BTree.deleteOk (st : BTree) (fuel : Nat) (key : Key) :
    Except Error BTree :=
  match st.delete fuel key with
  | (.ok _, st') => .ok st'
  | (.error e, _) => .error e

/-- Chain a list of inserts. -/
def insertAll (fuel : Nat) (st : BTree) :
    List (String × String) → Except Error BTree
  | [] => .ok st
  | (k, v) :: rest =>
    match st.insertOk fuel k v with
    | .ok st' => insertAll fuel st' rest
    | .error e => .error e

/-- The result of one `search`, discarding the (unchanged) state. -/
def BTree.search1 (st : BTree) (fuel : Nat) (key : String) :
    Except Error String :=
  (st.search fuel key).1

/-- The freshly built tree for `b = 2` (the value of
`BTreeBuilder.build 2`): an empty data page, an empty leaf root
referencing it, WAL root at the root's offset. -/
def sampleTree : BTree :=
  ⟨⟨[Page.data ⟨[]⟩, Page.node ⟨.leaf ⟨0⟩ [], true, none⟩]⟩, 2, ⟨⟨1⟩, 1⟩⟩

/-- Four distinct-key inserts, not in key order, on a fresh `b = 2`
tree: enough to trigger one leaf split whose pair order disagrees with
the data-page value order. -/
def c1Tree : Except Error BTree :=
  (BTreeBuilder.build 2).bind fun t =>
    insertAll 9 t [("b", "1"), ("c", "2"), ("a", "3"), ("d", "4")]

/-- Two distinct-key inserts, not in key order, on a fresh `b = 2`
tree (no split involved). -/
def c2Tree : Except Error BTree :=
  (BTreeBuilder.build 2).bind fun t => insertAll 9 t [("b", "1"), ("a", "2")]

/-- The `c2Tree` state followed by `delete("a")`. -/
def c2AfterDelete : Except Error BTree :=
  c2Tree.bind fun t => t.deleteOk 9 (Key.mk "a")

/-- The spec's scenario 4 (the source's `delete_works` test): `b = 2`,
insert `d, e, f, a, b, c`. -/
def c4Tree : Except Error BTree :=
  (BTreeBuilder.build 2).bind fun t =>
    insertAll 9 t
      [("d", "olah"), ("e", "salam"), ("f", "hallo"),
       ("a", "shalom"), ("b", "hello"), ("c", "marhaba")]

/-- The `c4Tree` state followed by the first delete, `delete("c")`. -/
def c4AfterDeleteC : Except Error BTree :=
  c4Tree.bind fun t => t.deleteOk 9 (Key.mk "c")

/-- With `b = 2`, insert `a, b, c, d`: a tree whose root is internal with
exactly two leaf children. -/
def c5Tree : Except Error BTree :=
  (BTreeBuilder.build 2).bind fun t =>
    insertAll 9 t [("a", "va"), ("b", "vb"), ("c", "vc"), ("d", "vd")]

/-- The `c5Tree` state followed by `delete("c")`, leaving the right leaf with a single
pair, so that the next delete underflows it and forces the root's two
children to merge. -/
def c5AfterDeleteC : Except Error BTree :=
  c5Tree.bind fun t => t.deleteOk 9 (Key.mk "c")

/-- A one-pair leaf node (`b` stored once), used to witness the
duplicate-insert behavior. -/
def c9Leaf : Node := ⟨.leaf ⟨0⟩ [⟨"b", 0⟩], true, none⟩

/-- A tree state holding `c9Leaf` at offset 1 over a one-value data
page at offset 0. -/
def c9State : BTree :=
  ⟨⟨[Page.data ⟨["1"]⟩, Page.node c9Leaf]⟩, 2, ⟨⟨1⟩, 1⟩⟩

/-- C1.  The round-trip property fails on the code: on a fresh `b = 2`
tree, after the distinct-key inserts `b↦"1"`, `c↦"2"`, `a↦"3"`,
`d↦"4"` (all of which return `Ok`), the claim requires
`search(a) = Ok "3"` and `search(c) = Ok "2"`; the code returns
`Err(UnexpectedError)` for `a` (its `idx` dangles past the end of the
split data page) and `Ok "3"` — the value inserted for `a` — for `c`
(the leaf split divides the data page by insertion position while the
pairs are divided by key order). -/
theorem c1_roundtrip_fails_on_reordered_inserts :
    c1Tree.map
        (fun t => (t.search1 9 "a", t.search1 9 "b", t.search1 9 "c", t.search1 9 "d"))
      = .ok (.error .unexpectedError, .ok "1", .ok "3", .ok "4") := rfl

/-- C2.  Delete corrupts the surviving keys' values: on a fresh `b = 2`
tree, after inserting `b↦"1"` then `a↦"2"` both keys round-trip, but
after `delete("a")` the claim requires `search(b) = Ok "1"` while the
code returns `Ok "2"` — `delete` removes from the data page the value
at the *pair's position* in the sorted pair list, which here deletes
`b`'s value `"1"` and leaves `b`'s `idx` pointing at `a`'s value `"2"`.
(`search(a) = Err(KeyNotFound)`, the claim's first half, does hold
here.) -/
theorem c2_delete_corrupts_sibling_value :
    (c2Tree.map fun t => (t.search1 9 "a", t.search1 9 "b"))
        = .ok (.ok "2", .ok "1") ∧
      (c2AfterDelete.map fun t => (t.search1 9 "a", t.search1 9 "b"))
        = .ok (.error .keyNotFound, .ok "2") :=
  ⟨rfl, rfl⟩

/-- C4.  The spec's underflow/merge scenario (the source's
`delete_works` test) fails twice on the code: after inserting
`d, e, f, a, b, c` and deleting `c` (which does return `Ok`), the
remaining keys `d` and `e` do not return their original values `"olah"`
and `"salam"` but `"marhaba"` and `"shalom"`; and the second delete,
`delete("d")`, underflows the leaf and reaches the `todo!()` in
`BTree::merge`, i.e. it panics instead of returning `Ok`. -/
theorem c4_underflow_merge_scenario_fails :
    (c4AfterDeleteC.map fun t => (t.search1 9 "c", t.search1 9 "d", t.search1 9 "e", t.search1 9 "f"))
        = .ok (.error .keyNotFound, .ok "marhaba", .ok "shalom", .ok "hallo") ∧
      (c4AfterDeleteC.bind fun t => t.deleteOk 9 (Key.mk "d")) = .error .panicked :=
  ⟨rfl, rfl⟩

/-- C5.  Root collapse never happens on the code: on the `a, b, c, d`
tree, whose root is internal with exactly two leaf children (first
conjunct), the delete of `d` that would force those two children to
merge reaches the `todo!()` in `BTree::merge` and panics — it does not
return `Ok`, and the WAL root is unchanged by the attempt (second
conjunct), never pointing at a merged node.  (Had the leaf merge been
implemented, `BTree::delete` would additionally overwrite the root set
by the collapse shortcut with the copied old root's offset on
return.) -/
theorem c5_root_collapse_unreachable :
    (c5AfterDeleteC.bind fun t => t.pager.get_page t.wal.root)
        = .ok (.node ⟨.internal [⟨10⟩, ⟨15⟩] [⟨"b"⟩], true, none⟩) ∧
      (c5AfterDeleteC.map fun t =>
          ((t.delete 9 (Key.mk "d")).1, (t.delete 9 (Key.mk "d")).2.wal.root, t.wal.root))
        = .ok (.error .panicked, ⟨14⟩, ⟨14⟩) :=
  ⟨rfl, rfl⟩

theorem charCmp_self (a : Char) : charCmp a a = .eq := by
  simp [charCmp]

theorem charListCmp_self (l : List Char) : charListCmp l l = .eq := by
  induction l with
  | nil => rfl
  | cons a as ih => simp [charListCmp, charCmp_self, ih]

theorem strCmp_self (a : String) : strCmp a a = .eq :=
  charListCmp_self a.data

/-- C10.  `KeyValuePair`'s ordering is inconsistent with its equality:
`cmp` compares only `key` while `eq` also compares `idx`, so two pairs
with equal keys and different indices compare `Equal` yet are not
equal; and a binary search over pairs cannot distinguish two targets
that differ only in `idx`. -/
theorem c10_kvpair_cmp_eq_inconsistent (p q : KeyValuePair)
    (hkey : p.key = q.key) (hidx : p.idx ≠ q.idx) :
    kvCmp p q = .eq ∧ kvBeq p q = false ∧ p ≠ q ∧
      ∀ xs : List KeyValuePair,
        binarySearchBy (fun e => kvCmp e p) xs = binarySearchBy (fun e => kvCmp e q) xs := by
  refine ⟨?_, ?_, ?_, ?_⟩
  · unfold kvCmp
    rw [hkey]
    exact strCmp_self q.key
  · simp [kvBeq, hkey, hidx]
  · intro h
    exact hidx (congrArg KeyValuePair.idx h)
  · intro xs
    have hf : (fun e => kvCmp e p) = fun e => kvCmp e q := by
      funext e
      unfold kvCmp
      rw [hkey]
    rw [hf]

/-- Witness for C10 at `p = ("a", 0)`, `q = ("a", 1)`. -/
theorem c10_kvpair_witness :
    (KeyValuePair.mk "a" 0).key = (KeyValuePair.mk "a" 1).key ∧
      (KeyValuePair.mk "a" 0).idx ≠ (KeyValuePair.mk "a" 1).idx ∧
      (kvCmp ⟨"a", 0⟩ ⟨"a", 1⟩ = .eq ∧ kvBeq ⟨"a", 0⟩ ⟨"a", 1⟩ = false ∧
        (KeyValuePair.mk "a" 0) ≠ ⟨"a", 1⟩ ∧
        ∀ xs : List KeyValuePair,
          binarySearchBy (fun e => kvCmp e ⟨"a", 0⟩) xs
            = binarySearchBy (fun e => kvCmp e ⟨"a", 1⟩) xs) :=
  ⟨rfl, by decide, c10_kvpair_cmp_eq_inconsistent ⟨"a", 0⟩ ⟨"a", 1⟩ rfl (by decide)⟩

/-- C7.  Splitting a full internal node (`2b` children, `2b − 1` keys)
returns `k_{b−1}` as the median; the node retains the first `b`
children and first `b − 1` keys; the sibling is a non-root internal
node with children `c_b..c_{2b−1}`, keys `k_b..k_{2b−2}`, and the
parent offset of the split node at call time.  The pager is
untouched. -/
theorem c7_internal_split (node : Node) (b : Nat) (pager : Pager)
    (cs : List Offset) (ks : List Key)
    (hnt : node.node_type = .internal cs ks)
    (hc : cs.length = 2 * b) (hk : ks.length = 2 * b - 1) (hb : 1 ≤ b) :
    Node.split node b pager =
      (.ok (ks.getD (b - 1) (Key.mk ""),
            ⟨.internal (cs.drop b) (ks.drop b), false, node.parent_offset⟩),
       { node with node_type := .internal (cs.take b) (ks.take (b - 1)) }, pager) ∧
      (cs.take b).length = b ∧ (ks.take (b - 1)).length = b - 1 := by
  have hdlen : (ks.drop (b - 1)).length = b := by
    rw [List.length_drop, hk]
    omega
  have hne : ks.drop (b - 1) ≠ [] := by
    intro h
    rw [h] at hdlen
    simp at hdlen
    omega
  obtain ⟨median, rest, hcons⟩ := List.exists_cons_of_ne_nil hne
  have hget : ks.get? (b - 1) = some median := by
    have := List.get?_drop ks (b - 1) 0
    rw [hcons] at this
    simpa using this.symm
  have hgd : ks.getD (b - 1) (Key.mk "") = median := by
    rw [List.getD_eq_get?, hget]
    rfl
  have hrest : rest = ks.drop b := by
    have h1 : (ks.drop (b - 1)).tail = rest := by rw [hcons]; rfl
    rw [List.tail_drop] at h1
    have : b - 1 + 1 = b := by omega
    rw [this] at h1
    exact h1.symm
  obtain ⟨nt, ir, po⟩ := node
  simp only at hnt
  subst hnt
  constructor
  · simp only [Node.split, hcons, hgd, hrest]
  · constructor
    · rw [List.length_take, hc]
      omega
    · rw [List.length_take, hk]
      omega

/-- Witness for C7: a full internal node for `b = 2`. -/
theorem c7_internal_split_witness :
    Node.split ⟨.internal [⟨1⟩, ⟨2⟩, ⟨3⟩, ⟨4⟩] [⟨"a"⟩, ⟨"b"⟩, ⟨"c"⟩], false, some ⟨9⟩⟩ 2 ⟨[]⟩
        = (.ok (Key.mk "b", ⟨.internal [⟨3⟩, ⟨4⟩] [⟨"c"⟩], false, some ⟨9⟩⟩),
           ⟨.internal [⟨1⟩, ⟨2⟩] [⟨"a"⟩], false, some ⟨9⟩⟩, ⟨[]⟩) := by
  have h := c7_internal_split
    ⟨.internal [⟨1⟩, ⟨2⟩, ⟨3⟩, ⟨4⟩] [⟨"a"⟩, ⟨"b"⟩, ⟨"c"⟩], false, some ⟨9⟩⟩ 2 ⟨[]⟩
    [⟨1⟩, ⟨2⟩, ⟨3⟩, ⟨4⟩] [⟨"a"⟩, ⟨"b"⟩, ⟨"c"⟩] rfl rfl rfl (by decide)
  exact h.1

theorem foldlMin_le_init : ∀ (l : List Nat) (a : Nat),
    l.foldl (fun acc y => if y ≤ acc then y else acc) a ≤ a
  | [], _ => le_refl _
  | y :: l, a => by
    have h := foldlMin_le_init l (if y ≤ a then y else a)
    simp only [List.foldl_cons]
    by_cases hc : y ≤ a <;> simp only [hc, if_true, if_false] at h ⊢ <;> omega

theorem foldlMin_le : ∀ (l : List Nat) (a x : Nat), x ∈ l →
    l.foldl (fun acc y => if y ≤ acc then y else acc) a ≤ x
  | y :: l, a, x, hx => by
    simp only [List.foldl_cons]
    rcases List.mem_cons.mp hx with h | h
    · subst h
      have h1 := foldlMin_le_init l (if x ≤ a then x else a)
      by_cases hc : x ≤ a <;> simp only [hc, if_true, if_false] at h1 ⊢ <;> omega
    · exact foldlMin_le l _ x h

theorem foldlMin_mem : ∀ (l : List Nat) (a : Nat),
    l.foldl (fun acc y => if y ≤ acc then y else acc) a = a ∨
      l.foldl (fun acc y => if y ≤ acc then y else acc) a ∈ l
  | [], _ => .inl rfl
  | y :: l, a => by
    simp only [List.foldl_cons]
    rcases foldlMin_mem l (if y ≤ a then y else a) with h | h
    · rw [h]
      split
      · exact .inr (List.mem_cons_self _ _)
      · exact .inl rfl
    · exact .inr (List.mem_cons_of_mem _ h)

/-- C6.  Splitting a full leaf (`2b − 1` pairs): the median is
`pairs[b − 1].key` and the node retains `pairs[..b]` (so the median
stays on the left); the sibling is a non-root leaf holding `pairs[b..]`
with every `idx` reduced by the minimum `idx` among the sibling's
pairs, and its data page is newly appended (at the end of the file)
holding the right half `values[b..]` of the split data page, while the
left half `values[..b]` is overwritten in place at the original
data-page offset. -/
theorem c6_leaf_split (node : Node) (b : Nat) (pager : Pager)
    (off : Offset) (pairs : List KeyValuePair) (dp : DataPage)
    (hnt : node.node_type = .leaf off pairs)
    (hlen : pairs.length = 2 * b - 1)
    (hb : 2 ≤ b)
    (hidx : ∀ p ∈ pairs, p.idx ≤ USIZE_MAX)
    (hdp : pager.get_page off = .ok (Page.data dp)) :
    ∃ m : Nat,
      Node.split node b pager =
        (.ok (Key.mk ((pairs.getD (b - 1) ⟨"", 0⟩).key),
              ⟨.leaf ⟨pager.pages.length⟩
                     ((pairs.drop b).map fun p => { p with idx := p.idx - m }),
               false, node.parent_offset⟩),
         { node with node_type := .leaf off (pairs.take b) },
         ⟨(pager.pages.set off.val (Page.data ⟨dp.values.take b⟩))
            ++ [Page.data ⟨dp.values.drop b⟩]⟩) ∧
      m ∈ (pairs.drop b).map (·.idx) ∧
      ∀ p ∈ pairs.drop b, m ≤ p.idx := by
  refine ⟨(pairs.drop b).foldl (fun acc p => if p.idx ≤ acc then p.idx else acc) USIZE_MAX,
          ?_, ?_, ?_⟩
  · have hb1 : b - 1 < pairs.length := by omega
    obtain ⟨mp, hmp⟩ : ∃ mp, pairs.get? (b - 1) = some mp := by
      cases hq : pairs.get? (b - 1) with
      | some v => exact ⟨v, rfl⟩
      | none =>
        rw [List.get?_eq_none] at hq
        omega
    have hmed : (pairs.take b).get? (b - 1) = some mp := by
      rw [List.get?_take (by omega : b - 1 < b)]
      exact hmp
    have hgd : pairs.getD (b - 1) ⟨"", 0⟩ = mp := by
      rw [List.getD_eq_get?, hmp]
      rfl
    obtain ⟨nt, ir, po⟩ := node
    simp only at hnt
    subst hnt
    simp only [Node.split, hmed, hdp, DataPage.try_from, DataPage.split,
      Pager.write_page_at_offset, Pager.write_page, List.length_set, hgd]
  · have hlend : (pairs.drop b).length = b - 1 := by
      rw [List.length_drop, hlen]
      omega
    have hne : pairs.drop b ≠ [] := by
      intro h
      rw [h] at hlend
      simp at hlend
      omega
    rw [List.foldl_map (fun p : KeyValuePair => p.idx)
      (fun acc y => if y ≤ acc then y else acc) (pairs.drop b) USIZE_MAX |>.symm]
    rcases foldlMin_mem ((pairs.drop b).map (·.idx)) USIZE_MAX with h | h
    · obtain ⟨p0, hp0⟩ := List.exists_mem_of_ne_nil _ hne
      have hle := foldlMin_le ((pairs.drop b).map (·.idx)) USIZE_MAX p0.idx
        (List.mem_map_of_mem _ hp0)
      have hub : p0.idx ≤ USIZE_MAX := hidx p0 (List.mem_of_mem_drop hp0)
      rw [h]
      rw [h] at hle
      have : p0.idx = USIZE_MAX := le_antisymm hub hle
      rw [← this]
      exact List.mem_map_of_mem _ hp0
    · exact h
  · intro p hp
    have := foldlMin_le ((pairs.drop b).map (·.idx)) USIZE_MAX p.idx
      (List.mem_map_of_mem _ hp)
    rw [List.foldl_map] at this
    exact this

/-- Witness for C6: a full `b = 2` leaf whose pair order disagrees with
the data-page order (`a` was inserted last). -/
theorem c6_leaf_split_witness :
    Node.split ⟨.leaf ⟨0⟩ [⟨"a", 2⟩, ⟨"b", 0⟩, ⟨"c", 1⟩], true, none⟩ 2
        ⟨[Page.data ⟨["1", "2", "3"]⟩]⟩
      = (.ok (Key.mk "b", ⟨.leaf ⟨1⟩ [⟨"c", 0⟩], false, none⟩),
         ⟨.leaf ⟨0⟩ [⟨"a", 2⟩, ⟨"b", 0⟩], true, none⟩,
         ⟨[Page.data ⟨["1", "2"]⟩, Page.data ⟨["3"]⟩]⟩) ∧
      (1 : Nat) ∈ ([⟨"c", 1⟩] : List KeyValuePair).map (·.idx) := by
  obtain ⟨m, heq, hmem, -⟩ := c6_leaf_split
    ⟨.leaf ⟨0⟩ [⟨"a", 2⟩, ⟨"b", 0⟩, ⟨"c", 1⟩], true, none⟩ 2
    ⟨[Page.data ⟨["1", "2", "3"]⟩]⟩ ⟨0⟩ [⟨"a", 2⟩, ⟨"b", 0⟩, ⟨"c", 1⟩]
    ⟨["1", "2", "3"]⟩ rfl rfl (by omega) (by decide) rfl
  have hm : m = 1 := by
    simp only [List.drop_succ_cons, List.drop_zero, List.map_cons, List.map_nil,
      List.mem_singleton] at hmem
    exact hmem
  subst hm
  exact ⟨heq, by simp⟩

theorem binarySearchGo_bounds (f : α → Ordering) (xs : List α) :
    ∀ (fuel left right : Nat), left ≤ right →
      (∀ i, binarySearchGo f xs fuel left right = .ok i → left ≤ i ∧ i < right) ∧
      (∀ i, binarySearchGo f xs fuel left right = .error i → left ≤ i ∧ i ≤ right)
  | 0, left, right, h => by
    refine ⟨fun i hi => by simp [binarySearchGo] at hi, fun i hi => ?_⟩
    simp only [binarySearchGo, Except.error.injEq] at hi
    omega
  | fuel + 1, left, right, h => by
    constructor
    · intro i hi
      simp only [binarySearchGo] at hi
      by_cases hlr : left < right
      · simp only [hlr, if_true] at hi
        split at hi
        · exact absurd hi (by simp)
        · split at hi
          · have ih := binarySearchGo_bounds f xs fuel (left + (right - left) / 2 + 1)
              right (by omega)
            have := ih.1 i hi
            omega
          · have ih := binarySearchGo_bounds f xs fuel left (left + (right - left) / 2)
              (by omega)
            have := ih.1 i hi
            omega
          · simp only [Except.ok.injEq] at hi
            omega
      · simp only [hlr, if_false] at hi
        exact absurd hi (by simp)
    · intro i hi
      simp only [binarySearchGo] at hi
      by_cases hlr : left < right
      · simp only [hlr, if_true] at hi
        split at hi
        · simp only [Except.error.injEq] at hi
          omega
        · split at hi
          · have ih := binarySearchGo_bounds f xs fuel (left + (right - left) / 2 + 1)
              right (by omega)
            have := ih.2 i hi
            omega
          · have ih := binarySearchGo_bounds f xs fuel left (left + (right - left) / 2)
              (by omega)
            have := ih.2 i hi
            omega
          · exact absurd hi (by simp)
      · simp only [hlr, if_false, Except.error.injEq] at hi
        omega

theorem unwrapOrIdx_binarySearchBy_le (f : α → Ordering) (xs : List α) :
    unwrapOrIdx (binarySearchBy f xs) ≤ xs.length := by
  have h := binarySearchGo_bounds f xs (xs.length + 1) 0 xs.length (Nat.zero_le _)
  unfold binarySearchBy unwrapOrIdx
  cases hr : binarySearchGo f xs (xs.length + 1) 0 xs.length with
  | ok i => exact le_of_lt (h.1 i hr).2
  | error i => exact (h.2 i hr).2

theorem countP_insertAt (p : α → Bool) (i : Nat) (x : α) (xs : List α) :
    (insertAt i x xs).countP p = xs.countP p + if p x then 1 else 0 := by
  unfold insertAt
  rw [List.countP_append, List.countP_cons]
  conv_rhs => rw [← List.take_append_drop i xs, List.countP_append]
  omega

/-- C9.  Inserting a key already stored in a leaf (exactly one pair
carries it) returns `Ok` and adds a second `KeyValuePair` with that key
at the binary-search slot, the new pair's `idx` addressing the value
appended to the data page: no pair is overwritten or removed (the new
pair list is an `insertAt` of the old one), and the leaf written back
at the node's offset contains two pairs with that key. -/
theorem c9_duplicate_key_insert (fuel : Nat) (st : BTree) (node : Node)
    (node_offset dOff : Offset) (pairs : List KeyValuePair) (dp : DataPage)
    (key value : String)
    (hnt : node.node_type = .leaf dOff pairs)
    (hdp : st.pager.get_page dOff = .ok (Page.data dp))
    (hone : pairs.countP (fun p => p.key == key) = 1)
    (hoff : node_offset.val < st.pager.pages.length) :
    ∃ slot pairs',
      slot = unwrapOrIdx (binarySearchBy (fun p => kvCmp p ⟨key, 0⟩) pairs) ∧
      pairs' = insertAt slot ⟨key, dp.values.length⟩ pairs ∧
      (BTree.insert_non_full (fuel + 1) st node node_offset key value).1 = .ok () ∧
      ((BTree.insert_non_full (fuel + 1) st node node_offset key value).2).pager.get_page
          node_offset
        = .ok (Page.node { node with
            node_type := .leaf ⟨st.pager.pages.length⟩ pairs' }) ∧
      pairs'.countP (fun p => p.key == key) = 2 := by
  obtain ⟨nt, ir, po⟩ := node
  simp only at hnt
  subst hnt
  refine ⟨_, _, rfl, rfl, ?_, ?_, ?_⟩
  · simp only [BTree.insert_non_full, hdp, DataPage.try_from, DataPage.insert,
      Pager.write_page, Pager.write_page_at_offset]
  · simp only [BTree.insert_non_full, hdp, DataPage.try_from, DataPage.insert,
      Pager.write_page, Pager.write_page_at_offset]
    simp only [Pager.get_page]
    rw [List.get?_set_eq_of_lt _ (by simp; omega)]
  · rw [countP_insertAt, hone]
    simp

/-- Witness for C9: inserting `b` a second time into the one-pair leaf
`c9Leaf` (pair list `[("b", 0)]`, data page `["1"]`). -/
theorem c9_duplicate_key_insert_witness :
    ([⟨"b", 0⟩] : List KeyValuePair).countP (fun p => p.key == "b") = 1 ∧
      (1 : Nat) < c9State.pager.pages.length ∧
      ∃ slot pairs',
        slot = unwrapOrIdx
          (binarySearchBy (fun p => kvCmp p ⟨"b", 0⟩) ([⟨"b", 0⟩] : List KeyValuePair)) ∧
        pairs' = insertAt slot ⟨"b", 1⟩ [⟨"b", 0⟩] ∧
        (BTree.insert_non_full 1 c9State c9Leaf ⟨1⟩ "b" "2").1 = .ok () ∧
        ((BTree.insert_non_full 1 c9State c9Leaf ⟨1⟩ "b" "2").2).pager.get_page ⟨1⟩
          = .ok (Page.node { c9Leaf with node_type := .leaf ⟨2⟩ pairs' }) ∧
        pairs'.countP (fun p => p.key == "b") = 2 := by
  refine ⟨by decide, by decide, ?_⟩
  exact c9_duplicate_key_insert 0 c9State c9Leaf ⟨1⟩ ⟨0⟩ [⟨"b", 0⟩] ⟨["1"]⟩ "b" "2"
    rfl rfl (by decide) (by decide)

theorem search_node_state : ∀ (fuel : Nat) (st : BTree) (node : Node) (k : String),
    (BTree.search_node fuel st node k).2 = st
  | 0, _, _, _ => rfl
  | fuel + 1, st, node, k => by
    obtain ⟨nt, ir, po⟩ := node
    cases nt with
    | internal children keys =>
      simp only [BTree.search_node]
      split
      · rfl
      · split
        · rfl
        · split
          · rfl
          · exact search_node_state fuel st _ k
    | leaf off pairs =>
      simp only [BTree.search_node]
      split
      · split
        · rfl
        · split
          · rfl
          · split
            · rfl
            · split
              · rfl
              · rfl
      · rfl
    | unexpected => rfl

/-- C8.  `search` performs no writes: for every engine state and every
key, the state after a `search` call — the tree file's pages (no page
appended, no page overwritten) and the WAL root record — is exactly the
state before it, whether the call returns a value or an error. -/
theorem c8_search_is_read_only (st : BTree) (fuel : Nat) (key : String) :
    (st.search fuel key).2 = st := by
  simp only [BTree.search]
  split
  · rfl
  · split
    · rfl
    · exact search_node_state fuel st _ key

theorem get_page_ok_lt {p : Pager} {o : Offset} {pg : Page}
    (h : p.get_page o = .ok pg) : o.val < p.pages.length := by
  unfold Pager.get_page at h
  cases hq : p.pages.get? o.val with
  | none => rw [hq] at h; cases h
  | some v =>
    obtain ⟨hlt, -⟩ := List.get?_eq_some.mp hq
    exact hlt

theorem insert_non_full_wal : ∀ (fuel : Nat) (st : BTree) (node : Node)
    (off : Offset) (k v : String),
    ((BTree.insert_non_full fuel st node off k v).2).wal = st.wal
  | 0, _, _, _, _, _ => rfl
  | fuel + 1, st, node, off, k, v => by
    obtain ⟨nt, ir, po⟩ := node
    cases nt with
    | leaf d pairs =>
      simp only [BTree.insert_non_full]
      split
      · rfl
      · split
        · rfl
        · rfl
    | internal children keys =>
      simp only [BTree.insert_non_full]
      split
      · rfl
      · split
        · rfl
        · split
          · rfl
          · split
            · rfl
            · split
              · rfl
              · split
                · exact insert_non_full_wal fuel _ _ _ _ _
                · exact insert_non_full_wal fuel _ _ _ _ _
            · exact insert_non_full_wal fuel _ _ _ _ _
    | unexpected => rfl

theorem merge_leaf_ne_ok (st : BTree) (first second : Node) (d : Offset)
    (p : List KeyValuePair) (hnt : first.node_type = .leaf d p) (m : Node) :
    st.merge first second ≠ .ok m := by
  intro h
  simp only [BTree.merge, hnt] at h
  split at h <;> cases h

theorem borrow_if_needed_leaf_state (fuel : Nat) (st : BTree) (node : Node)
    (key : Key) (d : Offset) (p : List KeyValuePair)
    (hnt : node.node_type = .leaf d p) :
    (BTree.borrow_if_needed fuel st node key).2 = st := by
  cases fuel with
  | zero => rfl
  | succ fuel =>
    obtain ⟨nt, ir, po⟩ := node
    simp only at hnt
    subst hnt
    simp only [BTree.borrow_if_needed, BTree.is_node_underflow]
    split
    · rfl
    · rfl
    · cases po with
      | none => rfl
      | some parent_offset =>
        split
        · rfl
        · split
          · rfl
          · split
            · rfl
            · split
              · split
                · rfl
                · split
                  · rfl
                  · split
                    · rfl
                    · split
                      · rfl
                      · rename_i merged heq
                        exact absurd heq (merge_leaf_ne_ok st _ _ d p rfl merged)
              · rfl

theorem delete_key_from_subtree_wal : ∀ (fuel : Nat) (st : BTree) (key : Key)
    (node : Node) (off : Offset),
    ((BTree.delete_key_from_subtree fuel st key node off).2).wal = st.wal
  | 0, _, _, _, _ => rfl
  | fuel + 1, st, key, node, off => by
    obtain ⟨nt, ir, po⟩ := node
    cases nt with
    | leaf d pairs =>
      simp only [BTree.delete_key_from_subtree]
      split
      · rfl
      · split
        · rfl
        · split
          · rfl
          · split <;>
            · rename_i st2 heq
              have h2 : _ = st2 := congrArg Prod.snd heq
              rw [← h2, borrow_if_needed_leaf_state fuel _ _ _ _ _ rfl]
    | internal children keys =>
      simp only [BTree.delete_key_from_subtree]
      split
      · rfl
      · split
        · rfl
        · split
          · rfl
          · exact delete_key_from_subtree_wal fuel _ _ _ _
    | unexpected => rfl

theorem insert_wal_spec (st : BTree) (fuel : Nat) (k v : String) :
    ((st.insert fuel k v).1 = .ok () →
        (st.insert fuel k v).2.wal = st.wal.set_root ⟨st.pager.pages.length⟩ ∧
          st.wal.root.val < st.pager.pages.length) ∧
      ∀ e, (st.insert fuel k v).1 = .error e → (st.insert fuel k v).2.wal = st.wal := by
  simp only [BTree.insert, Wal.get_root, Pager.write_page]
  split
  · exact ⟨fun h => absurd h (by simp), fun e he => rfl⟩
  · rename_i root_page hg
    split
    · exact ⟨fun h => absurd h (by simp), fun e he => rfl⟩
    · split
      · exact ⟨fun h => absurd h (by simp), fun e he => rfl⟩
      · -- full root: new root allocated at the current end of file
        split
        · exact ⟨fun h => absurd h (by simp), fun e he => rfl⟩
        · split
          · rename_i st2 heq
            refine ⟨fun h => absurd h (by simp), fun e he => ?_⟩
            have h2 : _ = st2 := congrArg Prod.snd heq
            show st2.wal = st.wal
            rw [← h2]
            exact insert_non_full_wal fuel _ _ _ _ _
          · rename_i st2 heq
            refine ⟨fun _ => ⟨?_, get_page_ok_lt hg⟩, fun e he => absurd he (by simp)⟩
            have h2 : _ = st2 := congrArg Prod.snd heq
            show (st2.wal.set_root ⟨st.pager.pages.length⟩) = _
            have h3 : st2.wal = st.wal := by
              rw [← h2]
              exact insert_non_full_wal fuel _ _ _ _ _
            rw [h3]
      · -- non-full root
        split
        · rename_i st2 heq
          refine ⟨fun h => absurd h (by simp), fun e he => ?_⟩
          have h2 : _ = st2 := congrArg Prod.snd heq
          show st2.wal = st.wal
          rw [← h2]
          exact insert_non_full_wal fuel _ _ _ _ _
        · rename_i st2 heq
          refine ⟨fun _ => ⟨?_, get_page_ok_lt hg⟩, fun e he => absurd he (by simp)⟩
          have h2 : _ = st2 := congrArg Prod.snd heq
          show (st2.wal.set_root ⟨st.pager.pages.length⟩) = _
          have h3 : st2.wal = st.wal := by
            rw [← h2]
            exact insert_non_full_wal fuel _ _ _ _ _
          rw [h3]

theorem delete_wal_spec (st : BTree) (fuel : Nat) (key : Key) :
    ((st.delete fuel key).1 = .ok () →
        (st.delete fuel key).2.wal = st.wal.set_root ⟨st.pager.pages.length⟩ ∧
          st.wal.root.val < st.pager.pages.length) ∧
      ∀ e, (st.delete fuel key).1 = .error e → (st.delete fuel key).2.wal = st.wal := by
  simp only [BTree.delete, Wal.get_root, Pager.write_page]
  split
  · exact ⟨fun h => absurd h (by simp), fun e he => rfl⟩
  · rename_i root_page hg
    split
    · exact ⟨fun h => absurd h (by simp), fun e he => rfl⟩
    · split
      · rename_i st2 heq
        refine ⟨fun h => absurd h (by simp), fun e he => ?_⟩
        have h2 : _ = st2 := congrArg Prod.snd heq
        show st2.wal = st.wal
        rw [← h2]
        exact delete_key_from_subtree_wal fuel _ _ _ _
      · rename_i st2 heq
        refine ⟨fun _ => ⟨?_, get_page_ok_lt hg⟩, fun e he => absurd he (by simp)⟩
        have h2 : _ = st2 := congrArg Prod.snd heq
        show (st2.wal.set_root ⟨st.pager.pages.length⟩) = _
        have h3 : st2.wal = st.wal := by
          rw [← h2]
          exact delete_key_from_subtree_wal fuel _ _ _ _
        rw [h3]

/-- C3.  Atomic commit: a successful `insert` or `delete` performs
exactly one write of the WAL root record (the instrumentation counter
increases by one) and changes `get_root()` (the new root offset is the
fresh CoW copy appended past the old end of the file, hence differs
from the old root); a call that returns an error — `KeyNotFound`
included, and the modelled `todo!()` panic likewise — leaves the WAL,
and hence the logically visible tree, unchanged. -/
theorem c3_atomic_commit (st : BTree) (fuel : Nat) (key value : String) (dkey : Key) :
    ((st.insert fuel key value).1 = .ok () →
        (st.insert fuel key value).2.wal.root ≠ st.wal.root ∧
          (st.insert fuel key value).2.wal.writes = st.wal.writes + 1) ∧
      (∀ e, (st.insert fuel key value).1 = .error e →
        (st.insert fuel key value).2.wal = st.wal) ∧
      ((st.delete fuel dkey).1 = .ok () →
        (st.delete fuel dkey).2.wal.root ≠ st.wal.root ∧
          (st.delete fuel dkey).2.wal.writes = st.wal.writes + 1) ∧
      (∀ e, (st.delete fuel dkey).1 = .error e →
        (st.delete fuel dkey).2.wal = st.wal) := by
  have hi := insert_wal_spec st fuel key value
  have hd := delete_wal_spec st fuel dkey
  refine ⟨fun h => ?_, hi.2, fun h => ?_, hd.2⟩
  · obtain ⟨hw, hlt⟩ := hi.1 h
    rw [hw]
    refine ⟨fun hroot => ?_, rfl⟩
    have : st.pager.pages.length = st.wal.root.val := congrArg Offset.val hroot
    omega
  · obtain ⟨hw, hlt⟩ := hd.1 h
    rw [hw]
    refine ⟨fun hroot => ?_, rfl⟩
    have : st.pager.pages.length = st.wal.root.val := congrArg Offset.val hroot
    omega

/-- Witness for C3 on the freshly built `b = 2` tree: a successful
insert bumps the write counter and moves the root; a delete of an
absent key fails with `KeyNotFound` and leaves the WAL unchanged. -/
theorem c3_atomic_commit_witness :
    (sampleTree.insert 9 "a" "x").2.wal.root ≠ sampleTree.wal.root ∧
      (sampleTree.insert 9 "a" "x").2.wal.writes = sampleTree.wal.writes + 1 ∧
      (sampleTree.delete 9 (Key.mk "z")).2.wal = sampleTree.wal := by
  have h := c3_atomic_commit sampleTree 9 "a" "x" (Key.mk "z")
  exact ⟨(h.1 rfl).1, (h.1 rfl).2, h.2.2.2 .keyNotFound rfl⟩

end Btree
